import Mathlib

/-
Verification of the SSA-to-LLVM lowering core and its runtime support
library (tinygo).  Shallow embedding: each definition below mirrors one
function of the source tree (`compiler/compiler.go`, `src/runtime/*.go`);
bytes are `Nat` values below 256, machine pointers are `Nat` addresses
(0 = null), and fallible code returns `Except String`.
-/

set_option maxRecDepth 4000

/-! ### Runtime strings (src/runtime/string.go)

A Go string is `{ptr *byte, length lenType}`.  For the pure comparison
helpers only the byte contents matter, so they take `List Nat`.
`stringConcat` also involves the backing pointer, so it uses `GoString`
which keeps the pointer. -/

/-- Loop of `stringEqual`: `for i := 0; i < len(x); i++ ...`, with
`fuel = len(x) - i` remaining iterations. -/
def stringEqualLoop (x y : List Nat) : Nat → Nat → Bool
  | _, 0 => true
  | i, fuel+1 =>
    if x.getD i 0 ≠ y.getD i 0 then false
    else stringEqualLoop x y (i+1) fuel

/-- `stringEqual` (src/runtime/string.go:23): false on length mismatch,
else bytewise comparison. -/
def stringEqual (x y : List Nat) : Bool :=
  if x.length ≠ y.length then false
  else stringEqualLoop x y 0 x.length

/-- Loop of `stringLess`: compares byte by byte up to `l = min len(x) len(y)`;
after the loop returns `len(x) < len(y)`. -/
def stringLessLoop (x y : List Nat) : Nat → Nat → Bool
  | _, 0 => decide (x.length < y.length)
  | i, fuel+1 =>
    if x.getD i 0 < y.getD i 0 then true
    else if x.getD i 0 > y.getD i 0 then false
    else stringLessLoop x y (i+1) fuel

/-- `stringLess` (src/runtime/string.go:37): true iff `x < y`
lexicographically. -/
def stringLess (x y : List Nat) : Bool :=
  stringLessLoop x y 0 (min x.length y.length)

/-- A Go `_string` value: backing pointer plus bytes (the length field of
the struct equals `bytes.length`). -/
structure GoString where
  ptr : Nat
  bytes : List Nat
  deriving DecidableEq, Repr

/-- `stringConcat` (src/runtime/string.go:54).  `fresh` is the address
returned by `alloc` in the allocating branch; `memcpy` of the two parts
yields `x.bytes ++ y.bytes`. -/
def stringConcat (fresh : Nat) (x y : GoString) : GoString :=
  if x.bytes.length = 0 then y
  else if y.bytes.length = 0 then x
  else ⟨fresh, x.bytes ++ y.bytes⟩

/-! ### String binop lowering (compiler/compiler.go, `parseBinOp`,
string case at lines 2746-2768)

The comparison operators produce an `i1`; `+` calls `stringConcat`
instead, so the lowering function returns `none` for it. -/

inductive BinTok where
  | ADD | EQL | NEQ | LSS | LEQ | GTR | GEQ
  deriving DecidableEq, Repr

/-- The boolean value computed by the IR that `parseBinOp` emits for a
string comparison (`createRuntimeCall` to `stringEqual`/`stringLess`,
`CreateNot` for the negated forms), as in compiler.go:2746-2768. -/
def lowerStringComparison (op : BinTok) (x y : List Nat) : Option Bool :=
  match op with
  | .EQL => some (stringEqual x y)
  | .NEQ => some (!stringEqual x y)
  | .LSS => some (stringLess x y)
  | .LEQ => some (!stringLess y x)
  | .GTR => some (!stringLess x y)
  | .GEQ => some (stringLess y x)
  | .ADD => none

/-! ### Interface equality (src/runtime/interface.go:14) -/

/-- A runtime `_interface` value: `{typecode uint16, value *uint8}`. -/
structure Iface where
  typecode : Nat
  value : Nat
  deriving DecidableEq, Repr

/-- `interfaceEqual`: unequal typecodes → false; both nil (typecode 0) →
true; otherwise the runtime panics, modelled as `.error`. -/
def interfaceEqual (x y : Iface) : Except String Bool :=
  if x.typecode ≠ y.typecode then .ok false
  else if x.typecode = 0 then .ok true
  else .error "unimplemented: interface equality"

/-! ### Bounds-check emission (compiler/compiler.go, `emitBoundsCheck`,
lines 2063-2097)

An index value is a bit pattern `bits < 2^width`.  The emitter widens the
index to the array-length type before calling the runtime check. -/

/-- Bit pattern of `CreateZExt` from `fromWidth` to a wider type. -/
def zeroExtendBits (bits : Nat) : Nat := bits

/-- Bit pattern of `CreateSExt` from `fromWidth` to `toWidth` bits. -/
def signExtendBits (fromWidth toWidth bits : Nat) : Nat :=
  if bits < 2^(fromWidth - 1) then bits
  else bits + (2^toWidth - 2^fromWidth)

/-- The index widening performed by `emitBoundsCheck`
(compiler.go:2072-2078): when the index is narrower than the length type,
`Info()&types.IsUnsigned == 0` (a signed Go type) selects `CreateZExt`,
and the unsigned case selects `CreateSExt`. -/
def emitBoundsCheckExtend (lenWidth idxWidth : Nat) (isUnsigned : Bool)
    (bits : Nat) : Nat :=
  if idxWidth < lenWidth then
    if isUnsigned = false then zeroExtendBits bits
    else signExtendBits idxWidth lenWidth bits
  else bits

/-! ### Function prologue signature (compiler/compiler.go,
`parseFuncDecl`, lines 798-858) -/

inductive LLType where
  | voidT
  | i8ptr
  | intT (w : Nat)
  | structT (fields : List LLType)

structure FnSig where
  retType : LLType
  paramTypes : List LLType

/-- The error raised for a blocking function with results
(spec name `UnsupportedBlockingReturn`). -/
def unsupportedBlockingReturn : String :=
  "todo: return values in blocking function"

/-- Signature computation of `parseFuncDecl`.  `results` is the list of
lowered result types (`f.Signature.Results()`, nil ⟺ `[]`);
`paramFragments` are the already-expanded formal parameter fragments;
`needsContext` is `c.ir.FunctionNeedsContext(f)`. -/
def parseFuncDeclSig (blocking : Bool) (results : List LLType)
    (paramFragments : List LLType) (needsContext : Bool) :
    Except String FnSig :=
  let retType : Except String LLType :=
    if blocking then
      if !results.isEmpty then .error unsupportedBlockingReturn
      else .ok .i8ptr
    else if results.isEmpty then .ok .voidT
    else if results.length = 1 then .ok (results.getD 0 .voidT)
    else .ok (.structT results)
  match retType with
  | .error e => .error e
  | .ok rt =>
    let params :=
      (if blocking then [LLType.i8ptr] else []) ++ paramFragments ++
      (if needsContext then [LLType.i8ptr] else [])
    .ok ⟨rt, params⟩

/-! ### Slice-of-slice lowering (compiler/compiler.go, `parseExpr`
`*ssa.Slice` case, lines 2539-2568, and `emitSliceBoundsCheck`,
lines 2099-2117) -/

/-- A lowered slice value `{ptr, len, cap}`; the pointer is an address,
0 = null. -/
structure LowSlice where
  ptr : Nat
  len : Nat
  cap : Nat
  deriving DecidableEq, Repr

/-- Modelled from the spec: the runtime helper `sliceBoundsCheck`
(runtime support library, not under src/) succeeds, i.e. does not panic,
exactly when `low ≤ high ≤ capacity`. -/
def sliceBoundsCheckOk (capacity low high : Nat) : Bool :=
  low ≤ high && high ≤ capacity

/-- `emitSliceBoundsCheck` emits a call to the runtime check unless the
function carries `//go:nobounds`; the returned Bool is whether the
emitted check succeeds at runtime. -/
def emitSliceBoundsCheckOk (noBounds : Bool) (capacity low high : Nat) :
    Bool :=
  if noBounds then true else sliceBoundsCheckOk capacity low high

/-- Lowering of `s[low:high]` on a slice (compiler.go:2539-2568):
bounds check against the old capacity, then
`{GEP oldPtr low, high - low, oldCap - low}`.  `elemSize` scales the GEP;
returns the new slice and whether the emitted bounds check succeeds. -/
def sliceOfSlice (elemSize : Nat) (s : LowSlice) (low high : Nat) :
    LowSlice × Bool :=
  let check := emitSliceBoundsCheckOk false s.cap low high
  (⟨s.ptr + low * elemSize, high - low, s.cap - low⟩, check)

/-! ### mainWrapper emission (compiler/compiler.go, `Compile`,
lines 512-535) -/

inductive MWVal where
  | nullPtr
  | mainResult
  deriving DecidableEq, Repr

inductive MWInstr where
  | callMain (args : List MWVal)
  | callScheduler (arg : MWVal)
  | retVoid
  deriving DecidableEq, Repr

/-- Body of the emitted `mainWrapper` (compiler.go:525-535): with a
scheduler, `main.main(null parent)` then `runtime.scheduler(coroutine)`;
without, `main.main()`; both end in `CreateRetVoid`. -/
def emitMainWrapper (needsScheduler : Bool) : List MWInstr :=
  let body :=
    if needsScheduler then
      [MWInstr.callMain [MWVal.nullPtr], MWInstr.callScheduler MWVal.mainResult]
    else
      [MWInstr.callMain []]
  body ++ [MWInstr.retVoid]

/-! ### Defer engine (compiler/compiler.go, `parseFunc` lines 1311-1316
and `parseInstr` `*ssa.Defer` case lines 1412-1529)

A defer frame is `{thunk-ptr, next, ...payload}`.  Frames are alloca'd;
we model addresses as indices into the list of frames allocated so far
(in allocation order), with the head slot holding `Option` of such an
address (`none` = null). -/

structure DeferFrame where
  thunk : Nat
  next : Option Nat
  payload : List Nat
  deriving DecidableEq, Repr

structure DeferState where
  frames : List DeferFrame
  head : Option Nat
  deriving DecidableEq, Repr

/-- Function entry for a function that can recover (compiler.go:1311-1316):
the defer head slot is created and a null pointer is stored into it. -/
def initDeferState : DeferState := ⟨[], none⟩

/-- Lowering of one `*ssa.Defer` site (compiler.go:1412-1529): load the
current head as `next`, build the frame `{thunk, next, payload...}` in a
fresh alloca, and store that alloca as the new head. -/
def lowerDeferSite (st : DeferState) (thunk : Nat) (payload : List Nat) :
    DeferState :=
  let next := st.head
  let frame : DeferFrame := ⟨thunk, next, payload⟩
  ⟨st.frames ++ [frame], some st.frames.length⟩

/-- Execute the lowered code of `N` defer sites in order. -/
def runDeferSites (sites : List (Nat × List Nat)) : DeferState :=
  sites.foldl (fun st s => lowerDeferSite st s.1 s.2) initDeferState

/-- Follow the `next` links from a head pointer, collecting the frame
addresses; `fuel` bounds the number of steps. -/
def deferChain (frames : List DeferFrame) : Option Nat → Nat → List Nat
  | none, _ => []
  | some _, 0 => []
  | some a, fuel+1 =>
    a :: deferChain frames (frames.getD a ⟨0, none, []⟩).next fuel

/-! ### Compile-time map literals (compiler/compiler.go,
`initMapNewBucket` lines 923-948 and `getInterpretedValue` `*ir.MapValue`
case lines 1006-1084)

A bucket is `{tophash [8]i8, next *i8, keys [8]K, values [8]V}`.  Bucket
globals are modelled as a list in creation order; a bucket pointer is an
index into that list (`none` = null). -/

inductive MapKey where
  | str (s : List Nat)
  | intk (n : Nat)
  | unsupported (name : String)
  deriving DecidableEq, Repr

structure MapBucket where
  tophash : List Nat
  next : Option Nat
  keys : List MapKey
  values : List Nat
  deriving DecidableEq, Repr

/-- `initMapNewBucket` (compiler.go:923-948): a fresh bucket global with
the zero initializer (tophash zeroed, null next pointer, zero keys and
values). -/
def initMapNewBucket : MapBucket :=
  ⟨List.replicate 8 0, none, List.replicate 8 (.intk 0), List.replicate 8 0⟩

/-- The key bytes hashed at compile time (compiler.go:1025-1039): a
string key gives its bytes; a platform-int key gives `intSize`
little-endian bytes (`keyBuf[i] = byte(n); n >>= 8`); any other key type
is unsupported. -/
def littleEndianBytes : Nat → Nat → List Nat
  | 0, _ => []
  | size+1, n => (n % 256) :: littleEndianBytes size (n / 256)

def keyBufOf (intSize : Nat) : MapKey → Option (List Nat)
  | .str s => some s
  | .intk n => some (littleEndianBytes intSize n)
  | .unsupported _ => none

/-- Modelled from the spec: `hashmapTopHash` (compiler/map.go, not under
src/) — the top byte of the 32-bit key hash is stored in the tophash
slot. -/
def hashmapTopHash (hash : Nat) : Nat := hash / 2^24 % 256

/-- One iteration of the key/value insertion loop
(compiler.go:1015-1065) on state `(buckets so far, current bucket)`:
when `i%8 == 0 && i != 0` the bucket is full, so a new bucket is created
and its pointer is stored in the previous bucket's `next` field (index 1
of the struct); then tophash, key and value are written to slot `i % 8`
of the current bucket. -/
def bucketSetSlot (b : MapBucket) (slot : Nat) (th : Nat) (k : MapKey)
    (v : Nat) : MapBucket :=
  ⟨b.tophash.set slot th, b.next, b.keys.set slot k, b.values.set slot v⟩

def mapInsertEntry (st : List MapBucket × Nat) (i : Nat) (th : Nat)
    (k : MapKey) (v : Nat) : List MapBucket × Nat :=
  let (bs, cur) := st
  let (bs, cur) :=
    if i % 8 = 0 ∧ i ≠ 0 then
      let newIdx := bs.length
      let old := bs.getD cur initMapNewBucket
      (bs.set cur ⟨old.tophash, some newIdx, old.keys, old.values⟩
        ++ [initMapNewBucket], newIdx)
    else (bs, cur)
  (bs.set cur (bucketSetSlot (bs.getD cur initMapNewBucket) (i % 8) th k v),
    cur)

/-- The insertion loop itself: each key is converted to its hash bytes
(failing with the unsupported-map-key error otherwise) before the entry
is written. -/
def mapInsertLoop (hash : List Nat → Nat) (intSize : Nat) :
    List (MapKey × Nat) → Nat → List MapBucket × Nat →
    Except String (List MapBucket × Nat)
  | [], _, st => .ok st
  | (k, v) :: rest, i, st =>
    match keyBufOf intSize k with
    | none => .error "todo: init: map key not implemented"
    | some buf =>
      mapInsertLoop hash intSize rest (i+1)
        (mapInsertEntry st i (hashmapTopHash (hash buf)) k v)

/-- The emitted hashmap header (compiler.go:1067-1078): a pointer to the
first bucket and the entry count (`len(value.Keys)`). -/
structure HashmapHeader where
  bucketsPtr : Nat
  count : Nat
  deriving DecidableEq, Repr

/-- The `*ir.MapValue` case of `getInterpretedValue`
(compiler.go:1006-1084): create the first bucket, run the insertion
loop starting from it, and emit the header referencing bucket 0 with
`count = n`. -/
def getInterpretedMapValue (hash : List Nat → Nat) (intSize : Nat)
    (entries : List (MapKey × Nat)) :
    Except String (List MapBucket × HashmapHeader) :=
  match mapInsertLoop hash intSize entries 0 ([initMapNewBucket], 0) with
  | .error e => .error e
  | .ok (bs, _) => .ok (bs, ⟨0, entries.length⟩)

/-! ### UTF-8 encoding and decoding (src/runtime/string.go:115-168)

`rune` is a signed 32-bit integer, modelled as `Int`; bytes are `Nat`
values below 256.  In the multi-byte branches the guard gives `x > 0x7f`,
so the shifts and masks on `x` coincide with the `Nat` operations on
`x.toNat` (no truncation occurs in the `byte(...)` conversions there
because every operand is already below 256). -/

/-- `encodeUTF8` (src/runtime/string.go:115): the `[4]byte` array and the
number of bytes used. -/
def encodeUTF8 (x : Int) : List Nat × Nat :=
  if x ≤ 0x7f then
    ([(x % 256).toNat, 0, 0, 0], 1)
  else if x ≤ 0x7ff then
    let n := x.toNat
    ([0xc0 ||| (n >>> 6), 0x80 ||| (n &&& 0x3f), 0, 0], 2)
  else if x ≤ 0xffff then
    let n := x.toNat
    ([0xe0 ||| (n >>> 12), 0x80 ||| ((n >>> 6) &&& 0x3f),
      0x80 ||| ((n >>> 0) &&& 0x3f), 0], 3)
  else if x ≤ 0x10ffff then
    let n := x.toNat
    ([0xf0 ||| (n >>> 18), 0x80 ||| ((n >>> 12) &&& 0x3f),
      0x80 ||| ((n >>> 6) &&& 0x3f), 0x80 ||| ((n >>> 0) &&& 0x3f)], 4)
  else
    ([0xef, 0xbf, 0xbd, 0], 3)

/-- `decodeUTF8` (src/runtime/string.go:144): decode one character of
`s` at `index`.  `remaining` is computed in unsigned 32-bit (`lenType`)
arithmetic, exactly as `lenType(len(s)) - index` wraps. -/
def decodeUTF8 (s : List Nat) (index : Nat) : Int × Nat :=
  let remaining := (s.length % 2^32 + (2^32 - index % 2^32)) % 2^32
  let x := s.getD index 0
  if x &&& 0x80 = 0x00 then
    ((x : Int), 1)
  else if x &&& 0xe0 = 0xc0 then
    if remaining < 2 then (0xfffd, 1)
    else
      ((((x &&& 0x1f) <<< 6) ||| (s.getD (index+1) 0 &&& 0x3f) : Nat), 2)
  else if x &&& 0xf0 = 0xe0 then
    if remaining < 3 then (0xfffd, 1)
    else
      ((((x &&& 0x0f) <<< 12) ||| ((s.getD (index+1) 0 &&& 0x3f) <<< 6)
        ||| (s.getD (index+2) 0 &&& 0x3f) : Nat), 3)
  else if x &&& 0xf8 = 0xf0 then
    if remaining < 4 then (0xfffd, 1)
    else
      ((((x &&& 0x07) <<< 18) ||| ((s.getD (index+1) 0 &&& 0x3f) <<< 12)
        ||| ((s.getD (index+2) 0 &&& 0x3f) <<< 6)
        ||| (s.getD (index+3) 0 &&& 0x3f) : Nat), 4)
  else
    (0xfffd, 1)

/-! ### Derived definitions for the map-literal invariant (C4) -/

/-- Number of bucket globals created after inserting `m` entries: one
initial bucket plus one per overflow. -/
def numBuckets (m : Nat) : Nat := if m = 0 then 1 else (m - 1) / 8 + 1

/-- Entry `i` of the map literal occupies slot `i % 8` of bucket `i / 8`:
its tophash slot holds the top byte of the key hash and its key/value
slots hold the entry. -/
def mapSlotSpec (hash : List Nat → Nat) (intSize : Nat)
    (entries : List (MapKey × Nat)) (bs : List MapBucket) (i : Nat) : Prop :=
  (bs.getD (i / 8) initMapNewBucket).tophash.getD (i % 8) 0 =
    hashmapTopHash (hash ((keyBufOf intSize (entries.getD i (.intk 0, 0)).1).getD [])) ∧
  (bs.getD (i / 8) initMapNewBucket).keys.getD (i % 8) (.intk 0) =
    (entries.getD i (.intk 0, 0)).1 ∧
  (bs.getD (i / 8) initMapNewBucket).values.getD (i % 8) 0 =
    (entries.getD i (.intk 0, 0)).2

/-- Each bucket has 8 tophash, key and value slots. -/
def mapBucketWF (b : MapBucket) : Prop :=
  b.tophash.length = 8 ∧ b.keys.length = 8 ∧ b.values.length = 8

/-- Invariant of the insertion loop after `m` entries: the bucket count,
the current-bucket index, the next-pointer chain, the filled slots, and
bucket well-formedness. -/
def mapStateInv (hash : List Nat → Nat) (intSize : Nat)
    (entries : List (MapKey × Nat)) (m : Nat)
    (st : List MapBucket × Nat) : Prop :=
  st.1.length = numBuckets m ∧
  st.2 = st.1.length - 1 ∧
  (∀ j, (st.1.getD j initMapNewBucket).next =
    if j + 1 < st.1.length then some (j + 1) else none) ∧
  (∀ i, i < m → mapSlotSpec hash intSize entries st.1 i) ∧
  (∀ j, mapBucketWF (st.1.getD j initMapNewBucket))

/-! ## Theorems -/

/-- C1: the string-comparison lowering is claimed to satisfy Go's
lexicographic semantics: `x > y` should be `stringLess y x` and `x >= y`
should be `!stringLess x y`.  The code instead lowers `>` to
`!stringLess x y` and `>=` to `stringLess y x` (compiler.go:2761-2765),
which differ on equal strings: for x = y = "a", the lowered `x > y`
yields true although `"a" < "a"` is false, and the lowered `x >= y`
yields false. -/
theorem C1_string_gtr_geq_swapped :
    lowerStringComparison .GTR [97] [97] = some true ∧
    lowerStringComparison .GEQ [97] [97] = some false ∧
    stringLess [97] [97] = false ∧
    stringEqual [97] [97] = true := by decide

/-- C2: the bounds-check emitter is claimed to zero-extend unsigned
indices and sign-extend signed ones.  The code (compiler.go:2072-2078)
does the opposite: for a signed (`isUnsigned = false`) 8-bit index with
bit pattern 0xff (value −1) widened to a 32-bit length type it emits a
zero-extension producing 255, while the claimed sign-extension yields
the 32-bit pattern of −1. -/
theorem C2_extension_swapped :
    emitBoundsCheckExtend 32 8 false 255 = 255 ∧
    signExtendBits 8 32 255 = 4294967295 ∧
    emitBoundsCheckExtend 32 8 true 255 = 4294967295 ∧
    zeroExtendBits 255 = 255 := by decide

/-- C3: a blocking function is declared with byte-pointer return type
(the task handle) and a leading byte-pointer parent-task parameter; a
blocking function with results fails with `UnsupportedBlockingReturn`
(in particular with multiple results), and one with no results
succeeds. -/
theorem C3_blocking_prologue (results paramFragments : List LLType)
    (needsContext : Bool) :
    (∀ sig, parseFuncDeclSig true results paramFragments needsContext = .ok sig →
      sig.retType = .i8ptr ∧ sig.paramTypes.head? = some .i8ptr) ∧
    (2 ≤ results.length →
      parseFuncDeclSig true results paramFragments needsContext =
        .error unsupportedBlockingReturn) ∧
    (results = [] →
      ∃ sig, parseFuncDeclSig true results paramFragments needsContext = .ok sig) := by
  refine ⟨?_, ?_, ?_⟩
  · intro sig h
    cases results with
    | nil =>
      simp only [parseFuncDeclSig, List.isEmpty_nil, Bool.not_true,
        Bool.false_eq_true, if_false, if_true] at h
      cases h
      simp
    | cons r rs =>
      simp [parseFuncDeclSig] at h
  · intro h
    cases results with
    | nil => simp at h
    | cons r rs => simp [parseFuncDeclSig]
  · rintro rfl
    exact ⟨_, rfl⟩

/-- Witness for C3 at concrete inputs: two `i32` results fail with the
blocking-return error; no results succeed. -/
theorem C3_blocking_prologue_witness :
    parseFuncDeclSig true [.intT 32, .intT 32] [] false =
      .error unsupportedBlockingReturn ∧
    ∃ sig, parseFuncDeclSig true [] [] false = .ok sig :=
  ⟨(C3_blocking_prologue [.intT 32, .intT 32] [] false).2.1 (by simp),
   (C3_blocking_prologue [] [] false).2.2 rfl⟩

/-- C6: slicing a nil slice (`ptr` null, len 0, cap 0) with `low = high
= 0` yields a nil-backed slice of length 0 and capacity 0, and the
emitted slice-bounds check on (capacity 0, low 0, high 0) succeeds. -/
theorem C6_nil_slice_reslice (elemSize : Nat) :
    sliceOfSlice elemSize ⟨0, 0, 0⟩ 0 0 = (⟨0, 0, 0⟩, true) := by
  simp [sliceOfSlice, emitSliceBoundsCheckOk, sliceBoundsCheckOk]

/-- C7: the emitted `mainWrapper` calls `main.main` with a null parent
task and hands the returned coroutine to `runtime.scheduler` when the
scheduler is needed, and otherwise calls `main.main` with no arguments;
both variants end by returning void. -/
theorem C7_mainWrapper_shape :
    emitMainWrapper true =
      [.callMain [.nullPtr], .callScheduler .mainResult, .retVoid] ∧
    emitMainWrapper false = [.callMain [], .retVoid] ∧
    ∀ b, (emitMainWrapper b).getLast? = some .retVoid := by
  refine ⟨rfl, rfl, ?_⟩
  intro b
  cases b <;> rfl

/-- C8: `interfaceEqual` returns false for different typecodes, true when
both typecodes are 0, and panics (never returns a value) for equal
non-zero typecodes. -/
theorem C8_interfaceEqual_spec (x y : Iface) :
    (x.typecode ≠ y.typecode → interfaceEqual x y = .ok false) ∧
    (x.typecode = 0 → y.typecode = 0 → interfaceEqual x y = .ok true) ∧
    (x.typecode = y.typecode → x.typecode ≠ 0 →
      interfaceEqual x y = .error "unimplemented: interface equality") := by
  refine ⟨?_, ?_, ?_⟩
  · intro h; simp [interfaceEqual, h]
  · intro hx hy; simp [interfaceEqual, hx, hy]
  · intro he hz
    rw [he] at hz
    simp [interfaceEqual, he, hz]

/-- Witness for C8 at concrete interfaces. -/
theorem C8_interfaceEqual_witness :
    interfaceEqual ⟨1, 0⟩ ⟨2, 0⟩ = .ok false ∧
    interfaceEqual ⟨0, 0⟩ ⟨0, 0⟩ = .ok true ∧
    interfaceEqual ⟨5, 3⟩ ⟨5, 7⟩ = .error "unimplemented: interface equality" :=
  ⟨(C8_interfaceEqual_spec ⟨1, 0⟩ ⟨2, 0⟩).1 (by decide),
   (C8_interfaceEqual_spec ⟨0, 0⟩ ⟨0, 0⟩).2.1 rfl rfl,
   (C8_interfaceEqual_spec ⟨5, 3⟩ ⟨5, 7⟩).2.2 rfl (by decide)⟩

/-- C10: `stringConcat` returns `y` unchanged when `x` is empty, else
returns `x` unchanged when `y` is empty, and otherwise returns the
freshly allocated string holding the bytes of `x` followed by the bytes
of `y`; in every case the result's length is the sum of the lengths. -/
theorem C10_stringConcat_spec (fresh : Nat) (x y : GoString) :
    (x.bytes.length = 0 → stringConcat fresh x y = y) ∧
    (x.bytes.length ≠ 0 → y.bytes.length = 0 → stringConcat fresh x y = x) ∧
    (x.bytes.length ≠ 0 → y.bytes.length ≠ 0 →
      (stringConcat fresh x y).ptr = fresh ∧
      (stringConcat fresh x y).bytes = x.bytes ++ y.bytes) ∧
    (stringConcat fresh x y).bytes.length = x.bytes.length + y.bytes.length := by
  refine ⟨?_, ?_, ?_, ?_⟩
  · intro h; simp [stringConcat, h]
  · intro hx hy; simp [stringConcat, hx, hy]
  · intro hx hy; simp [stringConcat, hx, hy]
  · by_cases hx : x.bytes.length = 0
    · simp [stringConcat, hx]
    · by_cases hy : y.bytes.length = 0
      · simp [stringConcat, hx, hy]
      · simp [stringConcat, hx, hy]

/-- Witness for C10 at concrete strings. -/
theorem C10_stringConcat_witness :
    stringConcat 9 ⟨1, []⟩ ⟨2, [104, 105]⟩ = ⟨2, [104, 105]⟩ ∧
    stringConcat 9 ⟨1, [104]⟩ ⟨2, []⟩ = ⟨1, [104]⟩ ∧
    (stringConcat 9 ⟨1, [104]⟩ ⟨2, [105]⟩).ptr = 9 ∧
    (stringConcat 9 ⟨1, [104]⟩ ⟨2, [105]⟩).bytes = [104, 105] :=
  ⟨(C10_stringConcat_spec 9 ⟨1, []⟩ ⟨2, [104, 105]⟩).1 rfl,
   (C10_stringConcat_spec 9 ⟨1, [104]⟩ ⟨2, []⟩).2.1 (by decide) rfl,
   ((C10_stringConcat_spec 9 ⟨1, [104]⟩ ⟨2, [105]⟩).2.2.1 (by decide) (by decide)).1,
   ((C10_stringConcat_spec 9 ⟨1, [104]⟩ ⟨2, [105]⟩).2.2.1 (by decide) (by decide)).2⟩

/-! ### C5: the defer frame list -/

theorem runDeferSites_append (sites : List (Nat × List Nat)) (s : Nat × List Nat) :
    runDeferSites (sites ++ [s]) = lowerDeferSite (runDeferSites sites) s.1 s.2 := by
  simp [runDeferSites, List.foldl_append]

theorem runDeferSites_spec (sites : List (Nat × List Nat)) :
    (runDeferSites sites).frames.length = sites.length ∧
    (runDeferSites sites).head =
      (if sites.length = 0 then none else some (sites.length - 1)) ∧
    ∀ j, j < sites.length →
      (runDeferSites sites).frames.getD j ⟨0, none, []⟩ =
        ⟨(sites.getD j (0, [])).1,
         if j = 0 then none else some (j - 1),
         (sites.getD j (0, [])).2⟩ := by
  induction sites using List.reverseRecOn with
  | nil => simp [runDeferSites, initDeferState]
  | append_singleton pre s ih =>
    obtain ⟨ihlen, ihhead, ihframes⟩ := ih
    rw [runDeferSites_append]
    unfold lowerDeferSite
    refine ⟨by simp [ihlen], by simp [ihlen], ?_⟩
    intro j hj
    simp only [List.length_append, List.length_singleton] at hj
    rcases Nat.lt_or_ge j pre.length with hlt | hge
    · rw [List.getD_append _ _ _ _ (by rw [ihlen]; exact hlt),
        List.getD_append _ _ _ _ hlt]
      exact ihframes j hlt
    · have hj' : j = pre.length := by omega
      subst hj'
      rw [List.getD_append_right _ _ _ _ (by rw [ihlen]),
        List.getD_append_right _ _ _ _ (le_refl _)]
      simp [ihlen, ihhead]

theorem deferChain_spec (frames : List DeferFrame) (n : Nat)
    (hnext : ∀ j, j < n →
      (frames.getD j ⟨0, none, []⟩).next = if j = 0 then none else some (j - 1)) :
    ∀ m, m ≤ n →
      deferChain frames (if m = 0 then none else some (m - 1)) m =
        (List.range m).reverse := by
  intro m
  induction m with
  | zero => intro _; simp [deferChain]
  | succ k ihk =>
    intro hle
    simp only [Nat.succ_ne_zero, if_false, Nat.succ_sub_one]
    rw [deferChain]
    rw [hnext k (by omega)]
    rw [ihk (by omega)]
    rw [List.range_succ]
    simp

/-- C5: in a function that can recover, the defer head slot starts null;
each lowered defer site links its frame to the previous head and becomes
the new head, so after `N` defer sites (and no rundefers) the head points
to a chain of exactly `N` frames in reverse execution order, with frame
`j` holding defer site `j`'s thunk and payload and a `next` link to frame
`j − 1` (null for frame 0). -/
theorem C5_defer_list (sites : List (Nat × List Nat)) :
    initDeferState.head = none ∧
    (runDeferSites sites).frames.length = sites.length ∧
    deferChain (runDeferSites sites).frames (runDeferSites sites).head
        sites.length = (List.range sites.length).reverse ∧
    ∀ j, j < sites.length →
      (runDeferSites sites).frames.getD j ⟨0, none, []⟩ =
        ⟨(sites.getD j (0, [])).1,
         if j = 0 then none else some (j - 1),
         (sites.getD j (0, [])).2⟩ := by
  obtain ⟨hlen, hhead, hframes⟩ := runDeferSites_spec sites
  refine ⟨rfl, hlen, ?_, hframes⟩
  rw [hhead]
  apply deferChain_spec _ sites.length _ sites.length (le_refl _)
  intro j hj
  rw [hframes j hj]

/-- Witness for C5 on three concrete defer sites: the chain from the head
is [2, 1, 0] and frame 2 links to frame 1. -/
theorem C5_defer_list_witness :
    deferChain (runDeferSites [(10, [1]), (20, [2]), (30, [3])]).frames
      (runDeferSites [(10, [1]), (20, [2]), (30, [3])]).head 3 = [2, 1, 0] ∧
    (runDeferSites [(10, [1]), (20, [2]), (30, [3])]).frames.getD 2 ⟨0, none, []⟩ =
      ⟨30, some 1, [3]⟩ :=
  ⟨((C5_defer_list [(10, [1]), (20, [2]), (30, [3])]).2.2.1).trans (by decide),
   (((C5_defer_list [(10, [1]), (20, [2]), (30, [3])]).2.2.2) 2 (by decide)).trans
     (by decide)⟩

/-! ### C4: compile-time map literals -/


theorem getD_set_self {α : Type} (l : List α) (i : Nat) (a d : α)
    (h : i < l.length) : (l.set i a).getD i d = a := by
  simp [List.getD_eq_getElem?_getD, List.getElem?_set_self, h]

theorem getD_set_ne {α : Type} (l : List α) (i j : Nat) (a d : α)
    (h : i ≠ j) : (l.set i a).getD j d = l.getD j d := by
  simp [List.getD_eq_getElem?_getD, List.getElem?_set_ne h]

theorem getD_ge_length {α : Type} (l : List α) (n : Nat) (d : α)
    (h : l.length ≤ n) : l.getD n d = d := by
  simp [List.getD_eq_getElem?_getD, List.getElem?_eq_none h]





theorem numBuckets_pos (m : Nat) : 1 ≤ numBuckets m := by
  unfold numBuckets; split <;> omega

theorem mapInsertEntry_inv (hash : List Nat → Nat) (intSize : Nat)
    (entries : List (MapKey × Nat)) (m : Nat) (st : List MapBucket × Nat)
    (hinv : mapStateInv hash intSize entries m st) :
    mapStateInv hash intSize entries (m+1)
      (mapInsertEntry st m
        (hashmapTopHash (hash ((keyBufOf intSize (entries.getD m (.intk 0, 0)).1).getD [])))
        (entries.getD m (.intk 0, 0)).1 (entries.getD m (.intk 0, 0)).2) := by
  obtain ⟨bs, cur⟩ := st
  obtain ⟨hlen, hcur, hnext, hslots, hwf⟩ := hinv
  simp only at hlen hcur hnext hslots hwf
  have hpos : 1 ≤ bs.length := hlen ▸ numBuckets_pos m
  have hcurlt : cur < bs.length := by omega
  set th := hashmapTopHash (hash ((keyBufOf intSize (entries.getD m (.intk 0, 0)).1).getD [])) with hth
  set k := (entries.getD m (.intk 0, 0)).1 with hk
  set v := (entries.getD m (.intk 0, 0)).2 with hv
  by_cases hov : m % 8 = 0 ∧ m ≠ 0
  · -- overflow: new bucket appended, previous bucket's next patched
    have hcur8 : cur = (m - 1) / 8 := by
      rw [hcur, hlen]; unfold numBuckets; rw [if_neg hov.2]; omega
    have hL : bs.length = m / 8 := by
      rw [hlen]; unfold numBuckets; rw [if_neg hov.2]; omega
    simp only [mapInsertEntry, if_pos hov]
    set old := bs.getD cur initMapNewBucket with hold
    set X := bs.set cur ⟨old.tophash, some bs.length, old.keys, old.values⟩ with hX
    have hXlen : X.length = bs.length := by rw [hX, List.length_set]
    have hXL : (X ++ [initMapNewBucket]).length = bs.length + 1 := by
      simp [hXlen]
    have hgetL : (X ++ [initMapNewBucket]).getD bs.length initMapNewBucket =
        initMapNewBucket := by
      rw [List.getD_append_right _ _ _ _ (by omega), hXlen]
      simp
    refine ⟨?_, ?_, ?_, ?_, ?_⟩
    · simp only [List.length_set, hXL]
      unfold numBuckets
      rw [if_neg (by omega : ¬ m + 1 = 0)]
      omega
    · simp only [List.length_set, hXL]
      omega
    · intro j
      simp only [List.length_set, hXL]
      rcases Nat.lt_trichotomy j cur with hj | hj | hj
      · rw [getD_set_ne _ _ _ _ _ (by omega),
          List.getD_append _ _ _ _ (by omega), hX,
          getD_set_ne _ _ _ _ _ (by omega)]
        rw [hnext j, if_pos (by omega), if_pos (by omega)]
      · subst hj
        rw [getD_set_ne _ _ _ _ _ (by omega),
          List.getD_append _ _ _ _ (by omega), hX,
          getD_set_self _ _ _ _ (by omega)]
        rw [if_pos (by omega)]
        simp only [Option.some.injEq]
        omega
      · rcases Nat.lt_trichotomy j bs.length with hj2 | hj2 | hj2
        · omega
        · subst hj2
          rw [getD_set_self _ _ _ _ (by omega), hgetL]
          simp only [bucketSetSlot, initMapNewBucket]
          rw [if_neg (by omega)]
        · rw [getD_set_ne _ _ _ _ _ (by omega),
            getD_ge_length _ _ _ (by omega)]
          simp only [initMapNewBucket]
          rw [if_neg (by omega)]
    · intro i hi
      rcases Nat.lt_or_ge i m with him | him
      · have hbi : i / 8 ≤ cur := by omega
        have hspec := hslots i him
        unfold mapSlotSpec at hspec ⊢
        rw [getD_set_ne _ _ _ _ _ (by omega),
          List.getD_append _ _ _ _ (by omega)]
        by_cases hbc : i / 8 = cur
        · rw [hbc, hX, getD_set_self _ _ _ _ (by omega)]
          rw [hbc, ← hold] at hspec
          simpa using hspec
        · rw [hX, getD_set_ne _ _ _ _ _ (by omega)]
          exact hspec
      · have him' : i = m := by omega
        subst him'
        unfold mapSlotSpec
        have hbi : i / 8 = bs.length := by omega
        rw [hbi, getD_set_self _ _ _ _ (by omega), hgetL]
        have hs8 : i % 8 < 8 := Nat.mod_lt _ (by norm_num)
        simp only [bucketSetSlot, initMapNewBucket]
        refine ⟨?_, ?_, ?_⟩
        · rw [getD_set_self _ _ _ _ (by simp [hs8])]
        · rw [getD_set_self _ _ _ _ (by simp [hs8])]
        · rw [getD_set_self _ _ _ _ (by simp [hs8])]
    · intro j
      by_cases hj : j = bs.length
      · subst hj
        rw [getD_set_self _ _ _ _ (by omega), hgetL]
        simp [mapBucketWF, bucketSetSlot, initMapNewBucket]
      · rw [getD_set_ne _ _ _ _ _ (by omega)]
        rcases Nat.lt_or_ge j bs.length with hj2 | hj2
        · rw [List.getD_append _ _ _ _ (by omega)]
          by_cases hjc : j = cur
          · subst hjc
            rw [hX, getD_set_self _ _ _ _ (by omega)]
            have hw := hwf j
            rw [← hold] at hw
            simpa [mapBucketWF] using hw
          · rw [hX, getD_set_ne _ _ _ _ _ (by omega)]
            exact hwf j
        · rw [getD_ge_length _ _ _ (by omega)]
          simp [mapBucketWF, initMapNewBucket]
  · -- no overflow: write into the current bucket
    have hbm : m / 8 = cur := by
      by_cases hm : m = 0
      · subst hm
        rw [hcur, hlen]
        unfold numBuckets
        simp
      · have hm8 : m % 8 ≠ 0 := fun h => hov ⟨h, hm⟩
        rw [hcur, hlen]
        unfold numBuckets
        rw [if_neg hm]
        omega
    simp only [mapInsertEntry, if_neg hov]
    refine ⟨?_, ?_, ?_, ?_, ?_⟩
    · rw [List.length_set, hlen]
      unfold numBuckets
      rw [if_neg (by omega : ¬ m + 1 = 0)]
      by_cases hm : m = 0
      · subst hm
        simp
      · have hm8 : m % 8 ≠ 0 := fun h => hov ⟨h, hm⟩
        rw [if_neg hm]
        omega
    · rw [List.length_set]
      omega
    · intro j
      simp only [List.length_set]
      by_cases hj : j = cur
      · subst hj
        rw [getD_set_self _ _ _ _ hcurlt]
        simp only [bucketSetSlot]
        exact hnext j
      · rw [getD_set_ne _ _ _ _ _ (by omega)]
        exact hnext j
    · intro i hi
      rcases Nat.lt_or_ge i m with him | him
      · have hspec := hslots i him
        unfold mapSlotSpec at hspec ⊢
        by_cases hbc : i / 8 = cur
        · have hs : i % 8 ≠ m % 8 := by omega
          rw [hbc, getD_set_self _ _ _ _ hcurlt]
          rw [hbc] at hspec
          simp only [bucketSetSlot]
          refine ⟨?_, ?_, ?_⟩
          · rw [getD_set_ne _ _ _ _ _ (by omega)]
            exact hspec.1
          · rw [getD_set_ne _ _ _ _ _ (by omega)]
            exact hspec.2.1
          · rw [getD_set_ne _ _ _ _ _ (by omega)]
            exact hspec.2.2
        · rw [getD_set_ne _ _ _ _ _ (by omega)]
          exact hspec
      · have him' : i = m := by omega
        subst him'
        unfold mapSlotSpec
        rw [hbm, getD_set_self _ _ _ _ hcurlt]
        have hs8 : i % 8 < 8 := Nat.mod_lt _ (by norm_num)
        obtain ⟨ht, hk8, hv8⟩ := hwf cur
        simp only [bucketSetSlot]
        refine ⟨?_, ?_, ?_⟩
        · rw [getD_set_self _ _ _ _ (by omega)]
        · rw [getD_set_self _ _ _ _ (by omega)]
        · rw [getD_set_self _ _ _ _ (by omega)]
    · intro j
      by_cases hj : j = cur
      · subst hj
        rw [getD_set_self _ _ _ _ hcurlt]
        obtain ⟨ht, hk8, hv8⟩ := hwf j
        unfold mapBucketWF
        simp only [bucketSetSlot, List.length_set]
        exact ⟨ht, hk8, hv8⟩
      · rw [getD_set_ne _ _ _ _ _ (by omega)]
        exact hwf j

theorem mapInsertLoop_ok (hash : List Nat → Nat) (intSize : Nat)
    (entries : List (MapKey × Nat)) :
    ∀ (rest : List (MapKey × Nat)) (m : Nat) (st : List MapBucket × Nat),
      rest = entries.drop m →
      (∀ p ∈ rest, (keyBufOf intSize p.1).isSome) →
      mapStateInv hash intSize entries m st →
      ∃ st', mapInsertLoop hash intSize rest m st = .ok st' ∧
        mapStateInv hash intSize entries (m + rest.length) st' := by
  intro rest
  induction rest with
  | nil =>
    intro m st _ _ hinv
    exact ⟨st, rfl, by simpa using hinv⟩
  | cons p rest' ih =>
    intro m st hdrop hsupp hinv
    obtain ⟨k, v⟩ := p
    have hget : entries.getD m (.intk 0, 0) = (k, v) := by
      have h0 : (entries.drop m)[0]? = some (k, v) := by rw [← hdrop]; simp
      rw [List.getElem?_drop] at h0
      rw [Nat.add_zero] at h0
      simp [List.getD_eq_getElem?_getD, h0]
    have hsome : (keyBufOf intSize k).isSome :=
      hsupp (k, v) (List.mem_cons_self _ _)
    obtain ⟨buf, hbuf⟩ := Option.isSome_iff_exists.mp hsome
    have hstep := mapInsertEntry_inv hash intSize entries m st hinv
    rw [hget] at hstep
    have hbufD : (keyBufOf intSize k).getD [] = buf := by rw [hbuf]; rfl
    rw [hbufD] at hstep
    have hdrop' : rest' = entries.drop (m + 1) := by
      have hdd : List.drop 1 (List.drop m entries) = List.drop (m + 1) entries :=
        List.drop_drop 1 m entries
      rw [← hdd, ← hdrop]
      rfl
    obtain ⟨st', hloop, hinv'⟩ := ih (m+1) _ hdrop'
      (fun q hq => hsupp q (List.mem_cons_of_mem _ hq)) hstep
    refine ⟨st', ?_, ?_⟩
    · simp only [mapInsertLoop, hbuf]
      exact hloop
    · have hcount : m + ((k, v) :: rest').length = (m + 1) + rest'.length := by
        simp only [List.length_cons]
        omega
      rw [hcount]
      exact hinv'

theorem mapInsertLoop_err (hash : List Nat → Nat) (intSize : Nat) :
    ∀ (rest : List (MapKey × Nat)) (m : Nat) (st : List MapBucket × Nat),
      (∃ p ∈ rest, keyBufOf intSize p.1 = none) →
      mapInsertLoop hash intSize rest m st =
        .error "todo: init: map key not implemented" := by
  intro rest
  induction rest with
  | nil =>
    rintro m st ⟨p, hp, _⟩
    cases hp
  | cons q rest' ih =>
    rintro m st ⟨p, hp, hnone⟩
    obtain ⟨k, v⟩ := q
    by_cases hk : keyBufOf intSize k = none
    · simp only [mapInsertLoop, hk]
    · obtain ⟨buf, hbuf⟩ := Option.ne_none_iff_exists'.mp hk
      simp only [mapInsertLoop, hbuf]
      apply ih
      rcases List.mem_cons.mp hp with rfl | hmem
      · exact absurd hnone hk
      · exact ⟨p, hmem, hnone⟩

/-- C4: a compile-time map literal with `n` string or platform-int keys
materialises a chain of `max 1 ⌈n/8⌉` statically initialized buckets:
entry `i` sits in slot `i % 8` (of bucket `i / 8`), each overflow
allocates a fresh bucket whose pointer is patched into the previous
bucket's next field (so bucket `j` links to bucket `j+1`, the last to
null), each filled tophash slot holds the top byte of the key's hash,
and the header references the first bucket with `count = n`; any
unsupported key type fails with the `UnsupportedMapKey` error. -/
theorem C4_map_literal (hash : List Nat → Nat) (intSize : Nat)
    (entries : List (MapKey × Nat)) :
    ((∀ p ∈ entries, (keyBufOf intSize p.1).isSome) →
      ∃ bs, getInterpretedMapValue hash intSize entries =
          .ok (bs, ⟨0, entries.length⟩) ∧
        bs.length = max 1 ((entries.length + 7) / 8) ∧
        (∀ j, (bs.getD j initMapNewBucket).next =
          if j + 1 < bs.length then some (j + 1) else none) ∧
        (∀ i, i < entries.length → mapSlotSpec hash intSize entries bs i)) ∧
    ((∃ p ∈ entries, keyBufOf intSize p.1 = none) →
      getInterpretedMapValue hash intSize entries =
        .error "todo: init: map key not implemented") := by
  constructor
  · intro hsupp
    have hinv0 : mapStateInv hash intSize entries 0 ([initMapNewBucket], 0) := by
      refine ⟨by simp [numBuckets], by simp, ?_, by simp, ?_⟩
      · intro j
        cases j with
        | zero =>
          simp only [List.getD_eq_getElem?_getD]
          simp [initMapNewBucket]
        | succ j' =>
          rw [getD_ge_length _ _ _ (by simp)]
          simp [initMapNewBucket]
      · intro j
        cases j with
        | zero => simp [mapBucketWF, initMapNewBucket]
        | succ j' =>
          rw [getD_ge_length _ _ _ (by simp)]
          simp [mapBucketWF, initMapNewBucket]
    obtain ⟨st', hloop, hinv⟩ := mapInsertLoop_ok hash intSize entries entries 0
      ([initMapNewBucket], 0) (by simp) hsupp hinv0
    obtain ⟨bs', cur'⟩ := st'
    obtain ⟨hlen, hcur, hnext, hslots, hwf⟩ := hinv
    simp only at hlen hnext hslots
    refine ⟨bs', ?_, ?_, hnext, ?_⟩
    · unfold getInterpretedMapValue
      rw [hloop]
    · rw [hlen]
      unfold numBuckets
      split <;> omega
    · intro i hi
      exact hslots i (by simpa using hi)
  · intro hbad
    unfold getInterpretedMapValue
    rw [mapInsertLoop_err hash intSize entries 0 ([initMapNewBucket], 0) hbad]

/-- Witness for C4: a two-entry string-keyed literal materialises
successfully with the stated shape, and a literal containing a
channel-typed key fails with the unsupported-map-key error. -/
theorem C4_map_literal_witness :
    (∃ bs, getInterpretedMapValue (fun _ => 7 * 2^24) 4
        [(.str [97], 1), (.str [98], 2)] = .ok (bs, ⟨0, 2⟩) ∧
      bs.length = max 1 ((2 + 7) / 8) ∧
      (∀ j, (bs.getD j initMapNewBucket).next =
        if j + 1 < bs.length then some (j + 1) else none) ∧
      (∀ i, i < 2 → mapSlotSpec (fun _ => 7 * 2^24) 4
        [(.str [97], 1), (.str [98], 2)] bs i)) ∧
    getInterpretedMapValue (fun _ => 0) 4 [(.intk 1, 1), (.unsupported "chan int", 2)] =
      .error "todo: init: map key not implemented" :=
  ⟨(C4_map_literal (fun _ => 7 * 2^24) 4 [(.str [97], 1), (.str [98], 2)]).1
      (by decide),
   (C4_map_literal (fun _ => 0) 4 [(.intk 1, 1), (.unsupported "chan int", 2)]).2
      ⟨(.unsupported "chan int", 2), by simp, rfl⟩⟩

/-! ### C9: UTF-8 round-trip -/

/-- Disjoint-bit decomposition: or-ing a value shifted past `k` bits with
a value below `2^k` is addition. -/

theorem lor_mul_pow (m r k : Nat) (h : r < 2^k) : (m * 2^k) ||| r = m * 2^k + r := by
  apply Nat.eq_of_testBit_eq
  intro i
  rw [Nat.testBit_lor]
  rcases lt_or_ge i k with hi | hi
  · have hsplit : 2^k = 2^(k-i) * 2^i := by rw [← pow_add]; congr 1; omega
    obtain ⟨c, hc⟩ : ∃ c, 2^(k-i) = 2 * c :=
      ⟨2^(k-i-1), by rw [← pow_succ']; congr 1; omega⟩
    have h1 : (m * 2^k).testBit i = false := by
      rw [Nat.testBit_to_div_mod, hsplit, ← Nat.mul_assoc,
        Nat.mul_div_cancel _ (Nat.pos_pow_of_pos i (by norm_num)), hc]
      have hm : m * (2 * c) = 2 * (m * c) := by ring
      rw [hm, Nat.mul_mod_right]
      simp
    have h2 : (m * 2^k + r).testBit i = r.testBit i := by
      rw [Nat.testBit_to_div_mod, Nat.testBit_to_div_mod]
      have hrw : m * 2^k + r = r + (m * 2^(k-i)) * 2^i := by
        rw [hsplit]; ring
      rw [hrw, Nat.add_mul_div_right _ _ (Nat.pos_pow_of_pos i (by norm_num)), hc]
      have hm : m * (2 * c) = 2 * (m * c) := by ring
      rw [hm, Nat.add_mul_mod_self_left]
    rw [h1, h2]
    simp
  · have h1 : r.testBit i = false :=
      Nat.testBit_lt_two_pow (lt_of_lt_of_le h (Nat.pow_le_pow_right (by norm_num) hi))
    have hsplit : 2^i = 2^k * 2^(i-k) := by rw [← pow_add]; congr 1; omega
    have h2 : (m * 2^k + r).testBit i = (m * 2^k).testBit i := by
      rw [Nat.testBit_to_div_mod, Nat.testBit_to_div_mod, hsplit,
        ← Nat.div_div_eq_div_mul, ← Nat.div_div_eq_div_mul]
      have hrw : m * 2^k + r = r + m * 2^k := by ring
      rw [hrw, Nat.add_mul_div_right _ _ (Nat.pos_pow_of_pos k (by norm_num)),
        Nat.div_eq_of_lt h, Nat.mul_div_cancel _ (Nat.pos_pow_of_pos k (by norm_num))]
      simp
    rw [h1, h2]
    simp

theorem nat_and_63 (n : Nat) : n &&& 63 = n % 64 := by
  have h : (63:Nat) = 2^6 - 1 := by norm_num
  have h2 : (64:Nat) = 2^6 := by norm_num
  rw [h, h2, Nat.and_pow_two_sub_one_eq_mod]

theorem utf8_first_byte2 : ∀ q, q < 32 →
    (0xc0 ||| q) &&& 0x80 = 0x80 ∧ (0xc0 ||| q) &&& 0xe0 = 0xc0 ∧
    (0xc0 ||| q) &&& 0x1f = q := by decide

theorem utf8_first_byte3 : ∀ q, q < 16 →
    (0xe0 ||| q) &&& 0x80 = 0x80 ∧ (0xe0 ||| q) &&& 0xe0 = 0xe0 ∧
    (0xe0 ||| q) &&& 0xf0 = 0xe0 ∧ (0xe0 ||| q) &&& 0x0f = q := by decide

theorem utf8_first_byte4 : ∀ q, q < 8 →
    (0xf0 ||| q) &&& 0x80 = 0x80 ∧ (0xf0 ||| q) &&& 0xe0 = 0xe0 ∧
    (0xf0 ||| q) &&& 0xf0 = 0xf0 ∧ (0xf0 ||| q) &&& 0xf8 = 0xf0 ∧
    (0xf0 ||| q) &&& 0x07 = q := by decide

theorem utf8_cont_byte : ∀ r, r < 64 → (0x80 ||| r) &&& 0x3f = r := by decide

theorem utf8_ascii_byte : ∀ b, b < 128 → b &&& 0x80 = 0 := by decide

theorem decodeUTF8_one (b : Nat) (h : b &&& 0x80 = 0) :
    decodeUTF8 [b] 0 = ((b : Int), 1) := by
  unfold decodeUTF8
  simp [h]

theorem decodeUTF8_two (b1 b2 : Nat) (h1 : b1 &&& 0x80 ≠ 0)
    (h2 : b1 &&& 0xe0 = 0xc0) :
    decodeUTF8 [b1, b2] 0 =
      (((((b1 &&& 0x1f) <<< 6) ||| (b2 &&& 0x3f) : Nat) : Int), 2) := by
  unfold decodeUTF8
  simp only [List.length_cons, List.length_nil, List.getD_cons_zero,
    List.getD_cons_succ]
  rw [if_neg h1, if_pos h2, if_neg (by norm_num)]

theorem decodeUTF8_three (b1 b2 b3 : Nat) (h1 : b1 &&& 0x80 ≠ 0)
    (h2 : b1 &&& 0xe0 ≠ 0xc0) (h3 : b1 &&& 0xf0 = 0xe0) :
    decodeUTF8 [b1, b2, b3] 0 =
      (((((b1 &&& 0x0f) <<< 12) ||| ((b2 &&& 0x3f) <<< 6) ||| (b3 &&& 0x3f) : Nat) : Int), 3) := by
  unfold decodeUTF8
  simp only [List.length_cons, List.length_nil, List.getD_cons_zero,
    List.getD_cons_succ]
  rw [if_neg h1, if_neg h2, if_pos h3, if_neg (by norm_num)]

theorem decodeUTF8_four (b1 b2 b3 b4 : Nat) (h1 : b1 &&& 0x80 ≠ 0)
    (h2 : b1 &&& 0xe0 ≠ 0xc0) (h3 : b1 &&& 0xf0 ≠ 0xe0)
    (h4 : b1 &&& 0xf8 = 0xf0) :
    decodeUTF8 [b1, b2, b3, b4] 0 =
      (((((b1 &&& 0x07) <<< 18) ||| ((b2 &&& 0x3f) <<< 12) |||
        ((b3 &&& 0x3f) <<< 6) ||| (b4 &&& 0x3f) : Nat) : Int), 4) := by
  unfold decodeUTF8
  simp only [List.length_cons, List.length_nil, List.getD_cons_zero,
    List.getD_cons_succ]
  rw [if_neg h1, if_neg h2, if_neg h3, if_pos h4, if_neg (by norm_num)]

/-- C9: for every rune `0 ≤ x ≤ 0x10ffff`, `encodeUTF8 x` returns a byte
count between 1 and 4, and decoding the string formed by those bytes at
index 0 returns exactly `(x, length)`. -/
theorem C9_utf8_roundtrip (x : Int) (h0 : 0 ≤ x) (h1 : x ≤ 0x10ffff) :
    1 ≤ (encodeUTF8 x).2 ∧ (encodeUTF8 x).2 ≤ 4 ∧
    decodeUTF8 ((encodeUTF8 x).1.take (encodeUTF8 x).2) 0 =
      (x, (encodeUTF8 x).2) := by
  by_cases hb1 : x ≤ 0x7f
  · have hmod : x % 256 = x := Int.emod_eq_of_lt h0 (by omega)
    have henc : encodeUTF8 x = ([x.toNat, 0, 0, 0], 1) := by
      unfold encodeUTF8
      rw [if_pos hb1, hmod]
    rw [henc]
    refine ⟨by norm_num, by norm_num, ?_⟩
    simp only [List.take_succ_cons, List.take_zero]
    rw [decodeUTF8_one _ (utf8_ascii_byte _ (by omega))]
    simp only [Prod.mk.injEq]
    exact ⟨by omega, trivial⟩
  · by_cases hb2 : x ≤ 0x7ff
    · set n := x.toNat with hn
      have hq : n >>> 6 = n / 64 := by
        rw [Nat.shiftRight_eq_div_pow]
      have hr : n &&& 63 = n % 64 := nat_and_63 n
      have hqlt : n >>> 6 < 32 := by rw [hq]; omega
      have hrlt : n &&& 63 < 64 := by rw [hr]; omega
      have henc : encodeUTF8 x =
          ([0xc0 ||| (n >>> 6), 0x80 ||| (n &&& 0x3f), 0, 0], 2) := by
        unfold encodeUTF8
        rw [if_neg hb1, if_pos hb2]
      rw [henc]
      refine ⟨by norm_num, by norm_num, ?_⟩
      simp only [List.take_succ_cons, List.take_zero]
      rw [decodeUTF8_two _ _ (by rw [(utf8_first_byte2 _ hqlt).1]; norm_num)
        ((utf8_first_byte2 _ hqlt).2.1)]
      simp only [Prod.mk.injEq]
      refine ⟨?_, trivial⟩
      rw [(utf8_first_byte2 _ hqlt).2.2, utf8_cont_byte _ hrlt, Nat.shiftLeft_eq,
        lor_mul_pow _ _ 6 (by rw [hr]; omega)]
      rw [hq, hr]
      have hval : n / 64 * 2^6 + n % 64 = n := by omega
      rw [hval]
      omega
    · by_cases hb3 : x ≤ 0xffff
      · set n := x.toNat with hn
        have hq : n >>> 12 = n / 4096 := by
          rw [Nat.shiftRight_eq_div_pow]
        have hr1 : (n >>> 6) &&& 63 = n / 64 % 64 := by
          rw [nat_and_63, Nat.shiftRight_eq_div_pow]
        have hr0 : (n >>> 0) &&& 63 = n % 64 := by
          rw [Nat.shiftRight_zero, nat_and_63]
        have hqlt : n >>> 12 < 16 := by rw [hq]; omega
        have hr1lt : (n >>> 6) &&& 63 < 64 := by rw [hr1]; omega
        have hr0lt : (n >>> 0) &&& 63 < 64 := by rw [hr0]; omega
        have henc : encodeUTF8 x =
            ([0xe0 ||| (n >>> 12), 0x80 ||| ((n >>> 6) &&& 0x3f),
              0x80 ||| ((n >>> 0) &&& 0x3f), 0], 3) := by
          unfold encodeUTF8
          rw [if_neg hb1, if_neg hb2, if_pos hb3]
        rw [henc]
        refine ⟨by norm_num, by norm_num, ?_⟩
        simp only [List.take_succ_cons, List.take_zero]
        rw [decodeUTF8_three _ _ _
          (by rw [(utf8_first_byte3 _ hqlt).1]; norm_num)
          (by rw [(utf8_first_byte3 _ hqlt).2.1]; norm_num)
          ((utf8_first_byte3 _ hqlt).2.2.1)]
        simp only [Prod.mk.injEq]
        refine ⟨?_, trivial⟩
        rw [(utf8_first_byte3 _ hqlt).2.2.2, utf8_cont_byte _ hr1lt,
          utf8_cont_byte _ hr0lt, Nat.shiftLeft_eq, Nat.shiftLeft_eq,
          lor_mul_pow _ _ 12 (by rw [hr1]; omega)]
        have hring : (n >>> 12) * 2^12 + ((n >>> 6) &&& 63) * 2^6 =
            ((n >>> 12) * 2^6 + ((n >>> 6) &&& 63)) * 2^6 := by ring
        rw [hring, lor_mul_pow _ _ 6 (by rw [hr0]; omega)]
        rw [hq, hr1, hr0]
        have hval : (n / 4096 * 2^6 + n / 64 % 64) * 2^6 + n % 64 = n := by
          omega
        rw [hval]
        omega
      · set n := x.toNat with hn
        have hb4 : x ≤ 0x10ffff := h1
        have hq : n >>> 18 = n / 262144 := by
          rw [Nat.shiftRight_eq_div_pow]
        have hr2 : (n >>> 12) &&& 63 = n / 4096 % 64 := by
          rw [nat_and_63, Nat.shiftRight_eq_div_pow]
        have hr1 : (n >>> 6) &&& 63 = n / 64 % 64 := by
          rw [nat_and_63, Nat.shiftRight_eq_div_pow]
        have hr0 : (n >>> 0) &&& 63 = n % 64 := by
          rw [Nat.shiftRight_zero, nat_and_63]
        have hqlt : n >>> 18 < 8 := by rw [hq]; omega
        have hr2lt : (n >>> 12) &&& 63 < 64 := by rw [hr2]; omega
        have hr1lt : (n >>> 6) &&& 63 < 64 := by rw [hr1]; omega
        have hr0lt : (n >>> 0) &&& 63 < 64 := by rw [hr0]; omega
        have henc : encodeUTF8 x =
            ([0xf0 ||| (n >>> 18), 0x80 ||| ((n >>> 12) &&& 0x3f),
              0x80 ||| ((n >>> 6) &&& 0x3f), 0x80 ||| ((n >>> 0) &&& 0x3f)], 4) := by
          unfold encodeUTF8
          rw [if_neg hb1, if_neg hb2, if_neg hb3, if_pos hb4]
        rw [henc]
        refine ⟨by norm_num, by norm_num, ?_⟩
        simp only [List.take_succ_cons, List.take_zero]
        rw [decodeUTF8_four _ _ _ _
          (by rw [(utf8_first_byte4 _ hqlt).1]; norm_num)
          (by rw [(utf8_first_byte4 _ hqlt).2.1]; norm_num)
          (by rw [(utf8_first_byte4 _ hqlt).2.2.1]; norm_num)
          ((utf8_first_byte4 _ hqlt).2.2.2.1)]
        simp only [Prod.mk.injEq]
        refine ⟨?_, trivial⟩
        rw [(utf8_first_byte4 _ hqlt).2.2.2.2, utf8_cont_byte _ hr2lt,
          utf8_cont_byte _ hr1lt, utf8_cont_byte _ hr0lt,
          Nat.shiftLeft_eq, Nat.shiftLeft_eq, Nat.shiftLeft_eq,
          lor_mul_pow _ _ 18 (by rw [hr2]; omega)]
        have hringA : (n >>> 18) * 2^18 + ((n >>> 12) &&& 63) * 2^12 =
            ((n >>> 18) * 2^6 + ((n >>> 12) &&& 63)) * 2^12 := by ring
        rw [hringA, lor_mul_pow _ _ 12 (by rw [hr1]; omega)]
        have hringB : ((n >>> 18) * 2^6 + ((n >>> 12) &&& 63)) * 2^12 +
            ((n >>> 6) &&& 63) * 2^6 =
            (((n >>> 18) * 2^6 + ((n >>> 12) &&& 63)) * 2^6 +
              ((n >>> 6) &&& 63)) * 2^6 := by ring
        rw [hringB, lor_mul_pow _ _ 6 (by rw [hr0]; omega)]
        rw [hq, hr2, hr1, hr0]
        have hval : ((n / 262144 * 2^6 + n / 4096 % 64) * 2^6 + n / 64 % 64) * 2^6 +
            n % 64 = n := by omega
        rw [hval]
        omega

/-- Witness for C9 at the three-byte code point U+20AC. -/
theorem C9_utf8_roundtrip_witness :
    1 ≤ (encodeUTF8 0x20AC).2 ∧ (encodeUTF8 0x20AC).2 ≤ 4 ∧
    decodeUTF8 ((encodeUTF8 0x20AC).1.take (encodeUTF8 0x20AC).2) 0 =
      (0x20AC, (encodeUTF8 0x20AC).2) :=
  C9_utf8_roundtrip 0x20AC (by norm_num) (by norm_num)
